import Mathlib

/-!
# Triangle watchface: layout geometry and time formatting

A shallow embedding of `src/c/main.c`.  Machine integers are mathematical
integers with explicit wrap-around at the places where the C code narrows a
value: `int16_t` locals and the `int16_t` fields of `GPoint`, `GSize` and
`GRect`.  Arithmetic on `int16_t` operands is carried out in `int` (32 bits
on the target) after the usual integer promotions, and `/` on integers
truncates toward zero.
-/

namespace Watchface

/-! ## Machine integers -/

/-- Narrowing of an integer to `int16_t` (two's complement wrap-around). -/
def wrap16 (x : Int) : Int := (x + 32768) % 65536 - 32768

/-- Result of an arithmetic operation carried out in `int` (32 bits). -/
def wrap32 (x : Int) : Int := (x + 2147483648) % 4294967296 - 2147483648

/-- Value range of `int16_t`. -/
def fits16 (x : Int) : Prop := -32768 ≤ x ∧ x ≤ 32767

instance (x : Int) : Decidable (fits16 x) := by unfold fits16; infer_instance

/-- Value range of `int`. -/
def fits32 (x : Int) : Prop := -2147483648 ≤ x ∧ x ≤ 2147483647

instance (x : Int) : Decidable (fits32 x) := by unfold fits32; infer_instance

/-- C integer division `a / b` on `int`: the quotient truncated toward zero. -/
def cdiv (a b : Int) : Int := wrap32 (Int.tdiv a b)

/-- C integer multiplication on `int`. -/
def cmul (a b : Int) : Int := wrap32 (a * b)

/-- C integer addition on `int`. -/
def cadd (a b : Int) : Int := wrap32 (a + b)

/-- C integer subtraction on `int`. -/
def csub (a b : Int) : Int := wrap32 (a - b)

/-- Conversion to `int16_t` of the `double` value `n / 2` (every `double`
the layout code produces is a multiple of one half, far inside the range in
which such values are exact): the fraction is discarded, then the integer is
narrowed. -/
def doubleHalvesToInt16 (n : Int) : Int := wrap16 (Int.tdiv n 2)

/-! ## Geometry types of the SDK -/

/-- A point with `int16_t` coordinates. -/
structure GPoint where
  x : Int
  y : Int
  deriving DecidableEq

/-- A size with `int16_t` extents. -/
structure GSize where
  w : Int
  h : Int
  deriving DecidableEq

/-- A rectangle: origin and size. -/
structure GRect where
  origin : GPoint
  size : GSize
  deriving DecidableEq

/-- The SDK initialiser `GPoint(x, y)`: each argument is narrowed to the
`int16_t` field it initialises. -/
def GPointOf (x y : Int) : GPoint := ⟨wrap16 x, wrap16 y⟩

/-- The SDK initialiser `GRect(x, y, w, h)`: origin `(x, y)`, size `(w, h)`,
each argument narrowed to the `int16_t` field it initialises. -/
def GRectOf (x y w h : Int) : GRect := ⟨⟨wrap16 x, wrap16 y⟩, ⟨wrap16 w, wrap16 h⟩⟩

/-- The SDK selector `PBL_IF_ROUND_ELSE(a, b)`: `a` on a round display,
`b` on a rectangular one. -/
def PBL_IF_ROUND_ELSE (round : Bool) (a b : Int) : Int := if round then a else b

/-- First column right of the rectangle. -/
def GRect.right (r : GRect) : Int := r.origin.x + r.size.w

/-- First row below the rectangle. -/
def GRect.bottom (r : GRect) : Int := r.origin.y + r.size.h

/-- Pixel `(x, y)` belongs to the rectangle: columns `origin.x ≤ x < right`,
rows `origin.y ≤ y < bottom`. -/
def GRect.contains (r : GRect) (x y : Int) : Prop :=
  r.origin.x ≤ x ∧ x < r.right ∧ r.origin.y ≤ y ∧ y < r.bottom

instance (r : GRect) (x y : Int) : Decidable (r.contains x y) := by
  unfold GRect.contains; infer_instance

/-- Two rectangles share no pixel. -/
def GRect.disjoint (r s : GRect) : Prop := ∀ x y : Int, ¬ (r.contains x y ∧ s.contains x y)

/-- The rectangle lies within a canvas of size `w × h` placed at `(0, 0)`:
origin at or after `(0, 0)`, non-negative size, far edges inside the canvas. -/
def GRect.within (r : GRect) (w h : Int) : Prop :=
  0 ≤ r.origin.x ∧ 0 ≤ r.origin.y ∧ 0 ≤ r.size.w ∧ 0 ≤ r.size.h ∧
    r.right ≤ w ∧ r.bottom ≤ h

instance (r : GRect) (w h : Int) : Decidable (r.within w h) := by
  unfold GRect.within; infer_instance

/-- The pixels common to `r` and `s` are exactly the pixels of `t`. -/
def GRect.inter_eq (r s t : GRect) : Prop :=
  ∀ x y : Int, (r.contains x y ∧ s.contains x y) ↔ t.contains x y

/-- Rectangle `s` is the mirror image of `r` in the vertical line `x = m`:
the pixel column `x` (the cell from `x` to `x + 1`) is reflected to the
column `2*m - 1 - x`. -/
def GRect.mirror_of (r s : GRect) (m : Int) : Prop :=
  ∀ x y : Int, r.contains x y ↔ s.contains (2 * m - 1 - x) y

/-! ## `padded_bounds` -/

/-- `padded_bounds(layer, pad)` applied to the bounds `b` of the layer: the
compound assignments compute in `int` and narrow to the `int16_t` field. -/
def padded_bounds (b : GRect) (pad : Int) : GRect :=
  { origin := { x := wrap16 (cadd b.origin.x pad), y := wrap16 (cadd b.origin.y pad) },
    size := { w := wrap16 (csub b.size.w (cmul pad 2)),
              h := wrap16 (csub b.size.h (cmul pad 2)) } }

/-! ## `divider_update_proc` -/

/-- A line segment handed to `graphics_draw_line`. -/
structure Segment where
  p0 : GPoint
  p1 : GPoint
  deriving DecidableEq

/-- `midx` as computed in `divider_update_proc` from the padded bounds. -/
def divider_midx (b : GRect) : Int := wrap16 (cadd b.origin.x (cdiv b.size.w 2))

/-- `apex_y` as computed in `divider_update_proc` from the padded bounds. -/
def divider_apex_y (b : GRect) : Int :=
  wrap16 (cadd b.origin.y (cdiv (cmul b.size.h 3) 5))

/-- `divider_update_proc` on a layer with bounds `bounds`: the segments passed
to `graphics_draw_line`, in call order. -/
def divider_update_proc (bounds : GRect) : List Segment :=
  let b := padded_bounds bounds 0
  let midx := divider_midx b
  let apex_y := divider_apex_y b
  let top_center := GPointOf midx b.origin.y
  let apex := GPointOf midx apex_y
  let bl := GPointOf b.origin.x (csub (cadd b.origin.y b.size.h) 1)
  let br := GPointOf (csub (cadd b.origin.x b.size.w) 1) (csub (cadd b.origin.y b.size.h) 1)
  [⟨top_center, apex⟩, ⟨apex, bl⟩, ⟨apex, br⟩]

/-! ## `main_window_load` -/

/-- The frames of the four text layers created by `main_window_load`. -/
structure Layout where
  hour : GRect
  minute : GRect
  date : GRect
  day : GRect
  deriving DecidableEq

/-- `midx` of `main_window_load`. -/
def load_midx (b : GRect) : Int := wrap16 (cdiv b.size.w 2)

/-- `apex_y` of `main_window_load`. -/
def load_apex_y (b : GRect) : Int := wrap16 (cdiv (cmul b.size.h 3) 5)

/-- `bottom_h` of `main_window_load`. -/
def load_bottom_h (b : GRect) : Int := wrap16 (csub b.size.h (load_apex_y b))

/-- The `double` expression `midx - pad*1.5`, narrowed to the `int16_t` width
field: `midx - pad*1.5 = (2*midx - 3*pad) / 2`. -/
def load_half_width (midx pad : Int) : Int := doubleHalvesToInt16 (2 * midx - 3 * pad)

/-- Geometry of `main_window_load` for root-layer bounds `b`; `padv` is the
value `PBL_IF_ROUND_ELSE(12, 6)` stored in the `int16_t` local `pad`. -/
def main_window_load (padv : Int) (b : GRect) : Layout :=
  let pad := wrap16 padv
  let midx := load_midx b
  let apex_y := load_apex_y b
  let bottom_h := load_bottom_h b
  { hour := GRectOf pad pad (load_half_width midx pad) (csub apex_y pad),
    minute := GRectOf (cadd midx (cdiv pad 2)) pad (load_half_width midx pad) (csub apex_y pad),
    date := GRectOf pad (cadd apex_y (cdiv pad 2)) (csub b.size.w (cmul pad 2)) (cdiv bottom_h 2),
    day := GRectOf pad (csub (cadd apex_y (cdiv bottom_h 2)) (cdiv pad 2))
             (csub b.size.w (cmul pad 2)) (cdiv bottom_h 2) }

/-- Bounds of a canvas of size `w × h`: origin `(0, 0)`, as `layer_get_bounds`
reports them. -/
def canvas (w h : Int) : GRect := ⟨⟨0, 0⟩, ⟨w, h⟩⟩

/-! ## Time formatting -/

/-- The fields of `struct tm` that the format strings of `update_time` read. -/
structure Tm where
  tm_min : Nat
  tm_hour : Nat
  tm_mday : Nat
  tm_wday : Nat
  deriving DecidableEq

/-- A broken-down time as `localtime` produces it: every field in its range. -/
def Tm.valid (t : Tm) : Prop :=
  t.tm_min < 60 ∧ t.tm_hour < 24 ∧ 1 ≤ t.tm_mday ∧ t.tm_mday ≤ 31 ∧ t.tm_wday < 7

instance (t : Tm) : Decidable t.valid := by unfold Tm.valid; infer_instance

/-- The terminating null character. -/
def NUL : Char := Char.ofNat 0

/-- A number printed in decimal, padded with a zero on the left to at least
two characters (`%02d`). -/
def pad2 (n : Nat) : List Char :=
  let ds := Nat.toDigits 10 n
  if ds.length < 2 then '0' :: ds else ds

/-- Abbreviated weekday names of the C locale, indexed by `tm_wday`. -/
def wday_abbrev : List (List Char) :=
  ["Sun".toList, "Mon".toList, "Tue".toList, "Wed".toList, "Thu".toList, "Fri".toList,
   "Sat".toList]

/-- Expansion of one `strftime` conversion specifier (C standard, C locale):
`%H` hour 00-23, `%I` hour 01-12, `%M` minute, `%d` day of month, `%a`
abbreviated weekday name.  Other specifiers do not occur in the program. -/
def strftime_conv (c : Char) (t : Tm) : List Char :=
  if c = 'H' then pad2 t.tm_hour
  else if c = 'I' then pad2 (if t.tm_hour % 12 = 0 then 12 else t.tm_hour % 12)
  else if c = 'M' then pad2 t.tm_min
  else if c = 'd' then pad2 t.tm_mday
  else if c = 'a' then wday_abbrev.getD t.tm_wday ['?']
  else ['%', c]

/-- Expansion of a `strftime` format: conversion specifiers are replaced,
every other character is copied. -/
def strftime_expand : List Char → Tm → List Char
  | [], _ => []
  | [c], _ => [c]
  | c :: d :: rest, t =>
    if c = '%' then strftime_conv d t ++ strftime_expand rest t
    else c :: strftime_expand (d :: rest) t

/-- `strftime(s, maxsize, format, t)` on the array `s`: when the expansion and
its terminating null fit in `maxsize` characters they are stored at the start
of `s`; otherwise zero is returned and the contents of the array are
indeterminate, rendered here as `none`. -/
def strftime (s : List Char) (maxsize : Nat) (format : String) (t : Tm) :
    Option (List Char) :=
  let out := strftime_expand format.toList t
  if out.length + 1 ≤ maxsize ∧ maxsize ≤ s.length then
    some (out ++ NUL :: s.drop (out.length + 1))
  else none

/-- `memmove(s + dst, s + src, n)` inside the array `s`; `none` when a byte
outside the array would be read or written. -/
def memmove (s : List Char) (dst src n : Nat) : Option (List Char) :=
  if src + n ≤ s.length ∧ dst + n ≤ s.length then
    some (s.take dst ++ (s.drop src).take n ++ s.drop (dst + n))
  else none

/-- The C string held in an array: the characters before the first null. -/
def cstr (s : List Char) : List Char := s.takeWhile (fun c => c != NUL)

/-- The leading-zero strip of `update_time`:
`if (s_hour_buf[0] == '0') memmove(s_hour_buf, s_hour_buf+1, 2);`. -/
def strip_leading_zero (s_hour_buf : List Char) : Option (List Char) :=
  if s_hour_buf.head? = some '0' then memmove s_hour_buf 0 1 2 else some s_hour_buf

/-- The four static character arrays of `update_time`. -/
structure Buffers where
  s_hour_buf : List Char
  s_min_buf : List Char
  s_date_buf : List Char
  s_day_buf : List Char
  deriving DecidableEq

/-- Declared sizes of the arrays: `char[3]`, `char[3]`, `char[3]`, `char[4]`. -/
def Buffers.wf (b : Buffers) : Prop :=
  b.s_hour_buf.length = 3 ∧ b.s_min_buf.length = 3 ∧ b.s_date_buf.length = 3 ∧
    b.s_day_buf.length = 4

instance (b : Buffers) : Decidable b.wf := by unfold Buffers.wf; infer_instance

/-- Static storage is zero-initialised. -/
def Buffers.init : Buffers :=
  ⟨[NUL, NUL, NUL], [NUL, NUL, NUL], [NUL, NUL, NUL], [NUL, NUL, NUL, NUL]⟩

/-- The hour part of `update_time`. -/
def update_hour (is_24h : Bool) (t : Tm) (s_hour_buf : List Char) : Option (List Char) :=
  if is_24h then
    strftime s_hour_buf 3 "%H" t
  else
    (strftime s_hour_buf 3 "%I" t).bind strip_leading_zero

/-- `update_time`: `is_24h` is the answer of `clock_is_24h_style()`, `t` the
broken-down current time, `st` the arrays as the previous call left them.  The
result holds the arrays whose C strings are handed to `text_layer_set_text`;
`none` when a formatting call did not fit or a move left its array. -/
def update_time (is_24h : Bool) (t : Tm) (st : Buffers) : Option Buffers :=
  (update_hour is_24h t st.s_hour_buf).bind fun hour =>
  (strftime st.s_min_buf 3 "%M" t).bind fun min =>
  (strftime st.s_date_buf 3 "%d" t).bind fun date =>
  (strftime st.s_day_buf 4 "%a" t).bind fun day =>
  some ⟨hour, min, date, day⟩

/-- Value of a decimal digit character. -/
def digit_value (c : Char) : Option Nat :=
  if '0' ≤ c ∧ c ≤ '9' then some (c.toNat - 48) else none

/-- Numeric value of a string of exactly two decimal digits. -/
def two_digit_value : List Char → Option Nat
  | [a, b] => (digit_value a).bind fun x => (digit_value b).bind fun y => some (10 * x + y)
  | _ => none

/-! ## Arithmetic helpers -/

theorem wrap16_eq (x : Int) (h1 : -32768 ≤ x) (h2 : x ≤ 32767) : wrap16 x = x := by
  unfold wrap16
  omega

theorem wrap32_eq (x : Int) (h1 : -2147483648 ≤ x) (h2 : x ≤ 2147483647) : wrap32 x = x := by
  unfold wrap32
  omega

/-- Truncating division by a positive divisor, in terms of flooring division. -/
theorem tdiv_pos_def (a b : Int) (hb : 0 < b) :
    Int.tdiv a b = if 0 ≤ a then a / b else -((-a) / b) := by
  split_ifs with h
  · exact Int.tdiv_eq_ediv h (le_of_lt hb)
  · have h2 : (0 : Int) ≤ -a := by omega
    have h3 := Int.tdiv_eq_ediv h2 (le_of_lt hb)
    rw [← h3, Int.neg_tdiv, neg_neg]

theorem tdiv_two_nonneg (a : Int) (h : 0 ≤ a) : Int.tdiv a 2 = a / 2 :=
  Int.tdiv_eq_ediv h (by decide)

theorem tdiv_five_nonneg (a : Int) (h : 0 ≤ a) : Int.tdiv a 5 = a / 5 :=
  Int.tdiv_eq_ediv h (by decide)

/-- The width `midx - pad*1.5` for an even `pad = 2*q` is the integer
`midx - 3*q`, stored unchanged when it is representable. -/
theorem load_half_width_even (m q : Int) (h1 : -32768 ≤ m - 3 * q) (h2 : m - 3 * q ≤ 32767) :
    load_half_width m (2 * q) = m - 3 * q := by
  have e : 2 * m - 3 * (2 * q) = 2 * (m - 3 * q) := by ring
  rw [load_half_width, doubleHalvesToInt16, e, Int.mul_tdiv_cancel_left _ (by decide)]
  exact wrap16_eq _ h1 h2

theorem load_midx_canvas (w h : Int) (w0 : 0 ≤ w) (w1 : w ≤ 32767) :
    load_midx (canvas w h) = w / 2 := by
  simp (disch := omega) only [load_midx, canvas, cdiv, tdiv_two_nonneg, wrap32_eq, wrap16_eq]

theorem load_apex_y_canvas (w h : Int) (h0 : 0 ≤ h) (h1 : h ≤ 32767) :
    load_apex_y (canvas w h) = h * 3 / 5 := by
  simp (disch := omega) only [load_apex_y, canvas, cdiv, cmul, tdiv_five_nonneg, wrap32_eq,
    wrap16_eq]

theorem load_bottom_h_canvas (w h : Int) (h0 : 0 ≤ h) (h1 : h ≤ 32767) :
    load_bottom_h (canvas w h) = h - h * 3 / 5 := by
  rw [load_bottom_h, load_apex_y_canvas w h h0 h1]
  simp (disch := omega) only [canvas, csub, wrap32_eq, wrap16_eq]

/-- The four frames on a canvas of non-negative `int16_t` size with one of the
two paddings of the program, written with flooring division. -/
theorem layout_canvas (pad w h : Int) (hp : pad = 12 ∨ pad = 6)
    (w0 : 0 ≤ w) (w1 : w ≤ 32767) (h0 : 0 ≤ h) (h1 : h ≤ 32767) :
    main_window_load pad (canvas w h) =
      { hour := ⟨⟨pad, pad⟩, ⟨w / 2 - 3 * (pad / 2), h * 3 / 5 - pad⟩⟩,
        minute := ⟨⟨w / 2 + pad / 2, pad⟩, ⟨w / 2 - 3 * (pad / 2), h * 3 / 5 - pad⟩⟩,
        date := ⟨⟨pad, h * 3 / 5 + pad / 2⟩, ⟨w - 2 * pad, (h - h * 3 / 5) / 2⟩⟩,
        day := ⟨⟨pad, h * 3 / 5 + (h - h * 3 / 5) / 2 - pad / 2⟩,
                ⟨w - 2 * pad, (h - h * 3 / 5) / 2⟩⟩ } := by
  have em := load_midx_canvas w h w0 w1
  have ea := load_apex_y_canvas w h h0 h1
  have eb := load_bottom_h_canvas w h h0 h1
  have e12 : load_half_width (w / 2) 12 = w / 2 - 18 :=
    load_half_width_even (w / 2) 6 (by omega) (by omega)
  have e6 : load_half_width (w / 2) 6 = w / 2 - 9 :=
    load_half_width_even (w / 2) 3 (by omega) (by omega)
  have cw : (canvas w h).size.w = w := rfl
  rcases hp with rfl | rfl
  · simp (disch := omega) only [main_window_load, em, ea, eb, cw, e12, GRectOf, cadd, csub,
      cmul, cdiv, tdiv_two_nonneg, wrap32_eq, wrap16_eq]
    simp only [Layout.mk.injEq, GRect.mk.injEq, GPoint.mk.injEq, GSize.mk.injEq, true_and,
      and_true, and_self]
    omega
  · simp (disch := omega) only [main_window_load, em, ea, eb, cw, e6, GRectOf, cadd, csub,
      cmul, cdiv, tdiv_two_nonneg, wrap32_eq, wrap16_eq]
    simp only [Layout.mk.injEq, GRect.mk.injEq, GPoint.mk.injEq, GSize.mk.injEq, true_and,
      and_true, and_self]
    omega

theorem tdiv_bounds (a b : Int) (hb : 0 < b) :
    (0 ≤ a → 0 ≤ Int.tdiv a b ∧ Int.tdiv a b ≤ a) ∧
      (a ≤ 0 → a ≤ Int.tdiv a b ∧ Int.tdiv a b ≤ 0) := by
  rw [tdiv_pos_def a b hb]
  constructor
  · intro h
    rw [if_pos h]
    exact ⟨Int.ediv_nonneg h (le_of_lt hb), Int.ediv_le_self b h⟩
  · intro h
    have h2 : (0 : Int) ≤ -a := by omega
    have h3 := Int.ediv_nonneg h2 (le_of_lt hb)
    have h4 := Int.ediv_le_self b h2
    split_ifs with h5
    · have e : a = 0 := by omega
      subst e
      simp
    · omega

theorem tdiv_two_bounds (a : Int) :
    a - 1 ≤ 2 * Int.tdiv a 2 ∧ 2 * Int.tdiv a 2 ≤ a + 1 := by
  rw [tdiv_pos_def a 2 (by decide)]
  split_ifs <;> omega

theorem tdiv_three_fifths_bounds (h : Int) :
    (0 ≤ h → 0 ≤ Int.tdiv (h * 3) 5 ∧ Int.tdiv (h * 3) 5 ≤ h) ∧
      (h ≤ 0 → h ≤ Int.tdiv (h * 3) 5 ∧ Int.tdiv (h * 3) 5 ≤ 0) := by
  rw [tdiv_pos_def (h * 3) 5 (by decide)]
  split_ifs <;> omega

/-- The apex row for every `int16_t` height: no wrap-around anywhere. -/
theorem load_apex_y_tdiv (w h : Int) (hh : fits16 h) :
    load_apex_y (canvas w h) = Int.tdiv (h * 3) 5 := by
  unfold fits16 at hh
  have hb := tdiv_bounds (h * 3) 5 (by decide)
  have hc := tdiv_three_fifths_bounds h
  simp (disch := omega) only [load_apex_y, canvas, cdiv, cmul, wrap32_eq, wrap16_eq]

theorem load_midx_tdiv (w h : Int) (hw : fits16 w) :
    load_midx (canvas w h) = Int.tdiv w 2 := by
  unfold fits16 at hw
  have hb := tdiv_bounds w 2 (by decide)
  simp (disch := omega) only [load_midx, canvas, cdiv, wrap32_eq, wrap16_eq]

theorem padded_bounds_zero (b : GRect) (hx : fits16 b.origin.x) (hy : fits16 b.origin.y)
    (hw : fits16 b.size.w) (hh : fits16 b.size.h) : padded_bounds b 0 = b := by
  unfold fits16 at hx hy hw hh
  obtain ⟨⟨x, y⟩, ⟨w, h⟩⟩ := b
  simp only at hx hy hw hh
  simp (disch := omega) only [padded_bounds, cadd, csub, cmul, zero_mul, add_zero, sub_zero,
    wrap32_eq, wrap16_eq]

theorem divider_apex_y_tdiv (w h : Int) (hh : fits16 h) :
    divider_apex_y (canvas w h) = Int.tdiv (h * 3) 5 := by
  unfold fits16 at hh
  have hb := tdiv_bounds (h * 3) 5 (by decide)
  have hc := tdiv_three_fifths_bounds h
  simp (disch := omega) only [divider_apex_y, canvas, cadd, cdiv, cmul, zero_add, wrap32_eq,
    wrap16_eq]

theorem divider_midx_tdiv (w h : Int) (hw : fits16 w) :
    divider_midx (canvas w h) = Int.tdiv w 2 := by
  unfold fits16 at hw
  have hb := tdiv_bounds w 2 (by decide)
  simp (disch := omega) only [divider_midx, canvas, cadd, cdiv, zero_add, wrap32_eq, wrap16_eq]

theorem floor_three_fifths (h : Int) : ⌊((3 * h : Int) : ℚ) / 5⌋ = 3 * h / 5 := by
  have e := Rat.floor_intCast_div_natCast (3 * h) 5
  simpa using e

/-! ## Layout claims -/

/-- C5: on a 180 by 180 canvas with padding 12, `main_window_load` computes
`midx = 90` and `apex_y = 108`; the lower band has height `180 - 108 = 72`;
the date frame and the day frame are each 156 wide and 36 high, and the top
edge of the date frame is `y = 114`. -/
theorem scenario_180_lower_band :
    load_midx (canvas 180 180) = 90 ∧ load_apex_y (canvas 180 180) = 108 ∧
      load_bottom_h (canvas 180 180) = 72 ∧
      (main_window_load (PBL_IF_ROUND_ELSE true 12 6) (canvas 180 180)).date.size = ⟨156, 36⟩ ∧
      (main_window_load (PBL_IF_ROUND_ELSE true 12 6) (canvas 180 180)).day.size = ⟨156, 36⟩ ∧
      (main_window_load (PBL_IF_ROUND_ELSE true 12 6) (canvas 180 180)).date.origin.y = 114 := by
  decide

/-- C4, as stated, fails: on a 180 by 180 canvas with padding 12 the hour
frame has top-left corner (12,12) but its bottom-right corner is (84,108),
not (72,96), and the minute frame has top-left corner (96,12) and
bottom-right corner (168,108), not (156,96). -/
theorem scenario_180_corners_differ :
    (main_window_load 12 (canvas 180 180)).hour.origin = ⟨12, 12⟩ ∧
      (main_window_load 12 (canvas 180 180)).hour.right = 84 ∧
      (main_window_load 12 (canvas 180 180)).hour.bottom = 108 ∧
      (main_window_load 12 (canvas 180 180)).minute.origin = ⟨96, 12⟩ ∧
      (main_window_load 12 (canvas 180 180)).minute.right = 168 ∧
      (main_window_load 12 (canvas 180 180)).minute.bottom = 108 ∧
      ¬ ((main_window_load 12 (canvas 180 180)).hour.right = 72 ∧
          (main_window_load 12 (canvas 180 180)).hour.bottom = 96 ∧
          (main_window_load 12 (canvas 180 180)).minute.right = 156 ∧
          (main_window_load 12 (canvas 180 180)).minute.bottom = 96) := by
  decide

/-- C4, amended: for every canvas of non-negative `int16_t` size and padding
12 or 6, the hour frame has origin `(pad, pad)` and SIZE
`(midx - 1.5*pad, apex_y - pad)`, so that its bottom-right corner is
`(midx - pad/2, apex_y)`; the minute frame has origin `(midx + pad/2, pad)`
and the same size.  On a 180 by 180 canvas with padding 12 the hour frame is
origin (12,12), size 72 by 96, and the minute frame origin (96,12), size 72 by
96. -/
theorem hour_minute_origin_and_size (pad w h : Int) (hp : pad = 12 ∨ pad = 6)
    (w0 : 0 ≤ w) (w1 : w ≤ 32767) (h0 : 0 ≤ h) (h1 : h ≤ 32767) :
    (main_window_load pad (canvas w h)).hour.origin = ⟨pad, pad⟩ ∧
      (main_window_load pad (canvas w h)).hour.size =
        ⟨load_midx (canvas w h) - 3 * (pad / 2), load_apex_y (canvas w h) - pad⟩ ∧
      (main_window_load pad (canvas w h)).hour.right = load_midx (canvas w h) - pad / 2 ∧
      (main_window_load pad (canvas w h)).hour.bottom = load_apex_y (canvas w h) ∧
      (main_window_load pad (canvas w h)).minute.origin =
        ⟨load_midx (canvas w h) + pad / 2, pad⟩ ∧
      (main_window_load pad (canvas w h)).minute.size =
        (main_window_load pad (canvas w h)).hour.size ∧
      (main_window_load 12 (canvas 180 180)).hour = ⟨⟨12, 12⟩, ⟨72, 96⟩⟩ ∧
      (main_window_load 12 (canvas 180 180)).minute = ⟨⟨96, 12⟩, ⟨72, 96⟩⟩ := by
  rw [layout_canvas pad w h hp w0 w1 h0 h1, load_midx_canvas w h w0 w1,
    load_apex_y_canvas w h h0 h1]
  refine ⟨rfl, rfl, ?_, ?_, rfl, rfl, by decide, by decide⟩
  · simp only [GRect.right]
    rcases hp with rfl | rfl <;> omega
  · simp only [GRect.bottom]
    omega

theorem hour_minute_origin_and_size_witness :
    (main_window_load 6 (canvas 144 168)).hour.origin = ⟨6, 6⟩ ∧
      (main_window_load 6 (canvas 144 168)).hour.size =
        ⟨load_midx (canvas 144 168) - 3 * (6 / 2), load_apex_y (canvas 144 168) - 6⟩ :=
  have t := hour_minute_origin_and_size 6 144 168 (Or.inr rfl) (by decide) (by decide)
    (by decide) (by decide)
  ⟨t.1, t.2.1⟩

/-- C6: for every height `h` that fits `int16_t`, the product `h * 3` is
computed in `int` without overflow, the quotient fits `int16_t`, and `apex_y`
(in `main_window_load` and in `divider_update_proc`) is exactly the quotient
of `h * 3` by 5 truncated toward zero; for every canvas height `h ≥ 0` this is
`floor(3h/5)`, and for every `h ≥ 5` it satisfies `0 < apex_y < h`. -/
theorem apex_y_floor_in_range (w h : Int) (hh : fits16 h) :
    fits32 (h * 3) ∧ fits16 (Int.tdiv (h * 3) 5) ∧
      load_apex_y (canvas w h) = Int.tdiv (h * 3) 5 ∧
      divider_apex_y (canvas w h) = Int.tdiv (h * 3) 5 ∧
      (0 ≤ h → load_apex_y (canvas w h) = ⌊((3 * h : Int) : ℚ) / 5⌋ ∧
        divider_apex_y (canvas w h) = ⌊((3 * h : Int) : ℚ) / 5⌋) ∧
      (5 ≤ h → 0 < load_apex_y (canvas w h) ∧ load_apex_y (canvas w h) < h) := by
  have e1 := load_apex_y_tdiv w h hh
  have e2 := divider_apex_y_tdiv w h hh
  have hb := tdiv_three_fifths_bounds h
  unfold fits16 at hh
  refine ⟨?_, ?_, e1, e2, ?_, ?_⟩
  · unfold fits32
    omega
  · unfold fits16
    omega
  · intro h0
    rw [e1, e2, floor_three_fifths, tdiv_five_nonneg _ (by omega)]
    constructor <;> congr 1 <;> ring
  · intro h5
    rw [e1, tdiv_five_nonneg _ (by omega)]
    omega

theorem apex_y_floor_in_range_witness :
    fits16 168 ∧ load_apex_y (canvas 144 168) = ⌊((3 * 168 : Int) : ℚ) / 5⌋ ∧
      0 < load_apex_y (canvas 144 168) ∧ load_apex_y (canvas 144 168) < 168 :=
  have t := apex_y_floor_in_range 144 168 (by decide)
  ⟨by decide, (t.2.2.2.2.1 (by decide)).1, t.2.2.2.2.2 (by decide)⟩

/-- C9: for bounds with origin (0,0) and size `(w, h)`, `padded_bounds` with
pad 0 returns the bounds unchanged and `divider_update_proc` draws exactly
three segments, in this order: top centre `(w/2, 0)` to the apex
`(w/2, (h*3)/5)`, apex to the bottom-left corner `(0, h-1)`, apex to the
bottom-right corner `(w-1, h-1)`; the apex coordinates are the `midx` and
`apex_y` of `main_window_load`.  (`/` is C division; `w - 1` and `h - 1` are
representable for every `int16_t` size above the minimum.) -/
theorem divider_three_segments (w h : Int) (hw0 : -32767 ≤ w) (hw1 : w ≤ 32767)
    (hh0 : -32767 ≤ h) (hh1 : h ≤ 32767) :
    padded_bounds (canvas w h) 0 = canvas w h ∧
      divider_update_proc (canvas w h) =
        [⟨⟨Int.tdiv w 2, 0⟩, ⟨Int.tdiv w 2, Int.tdiv (h * 3) 5⟩⟩,
         ⟨⟨Int.tdiv w 2, Int.tdiv (h * 3) 5⟩, ⟨0, h - 1⟩⟩,
         ⟨⟨Int.tdiv w 2, Int.tdiv (h * 3) 5⟩, ⟨w - 1, h - 1⟩⟩] ∧
      load_midx (canvas w h) = Int.tdiv w 2 ∧
      load_apex_y (canvas w h) = Int.tdiv (h * 3) 5 := by
  have fw : fits16 w := ⟨by omega, hw1⟩
  have fh : fits16 h := ⟨by omega, hh1⟩
  have ep : padded_bounds (canvas w h) 0 = canvas w h :=
    padded_bounds_zero (canvas w h) (show fits16 0 by decide) (show fits16 0 by decide) fw fh
  have bw := tdiv_bounds w 2 (by decide)
  have bh := tdiv_three_fifths_bounds h
  refine ⟨ep, ?_, load_midx_tdiv w h fw, load_apex_y_tdiv w h fh⟩
  simp only [divider_update_proc, ep, divider_midx_tdiv w h fw, divider_apex_y_tdiv w h fh]
  simp (disch := omega) only [canvas, GPointOf, cadd, csub, zero_add, wrap32_eq, wrap16_eq]

theorem divider_three_segments_witness :
    divider_update_proc (canvas 180 180) =
      [⟨⟨Int.tdiv 180 2, 0⟩, ⟨Int.tdiv 180 2, Int.tdiv (180 * 3) 5⟩⟩,
       ⟨⟨Int.tdiv 180 2, Int.tdiv (180 * 3) 5⟩, ⟨0, 180 - 1⟩⟩,
       ⟨⟨Int.tdiv 180 2, Int.tdiv (180 * 3) 5⟩, ⟨180 - 1, 180 - 1⟩⟩] :=
  (divider_three_segments 180 180 (by decide) (by decide) (by decide) (by decide)).2.1

/-- C7: for every canvas and every even padding for which the width
`midx - 1.5*pad` is representable in `int16_t`, the minute frame mirrors the
hour frame: same top edge, same width, same height, left edge at
`midx + pad/2`; the hour frame spans the columns from `pad` to
`midx - pad/2`, and reflecting these two edges in the line `x = midx` gives
the right and the left edge of the minute frame, so the minute frame is the
mirror image of the hour frame. -/
theorem minute_mirrors_hour (pad w h : Int) (hw : fits16 w) (hp : fits16 pad)
    (heven : pad % 2 = 0)
    (hrep : fits16 (load_midx (canvas w h) - 3 * (pad / 2))) :
    (main_window_load pad (canvas w h)).minute.origin.y =
        (main_window_load pad (canvas w h)).hour.origin.y ∧
      (main_window_load pad (canvas w h)).minute.size.w =
        (main_window_load pad (canvas w h)).hour.size.w ∧
      (main_window_load pad (canvas w h)).minute.size.h =
        (main_window_load pad (canvas w h)).hour.size.h ∧
      (main_window_load pad (canvas w h)).minute.origin.x =
        load_midx (canvas w h) + pad / 2 ∧
      (main_window_load pad (canvas w h)).hour.origin.x = pad ∧
      (main_window_load pad (canvas w h)).hour.right = load_midx (canvas w h) - pad / 2 ∧
      2 * load_midx (canvas w h) - (main_window_load pad (canvas w h)).hour.origin.x =
        (main_window_load pad (canvas w h)).minute.right ∧
      2 * load_midx (canvas w h) - (main_window_load pad (canvas w h)).hour.right =
        (main_window_load pad (canvas w h)).minute.origin.x ∧
      (main_window_load pad (canvas w h)).hour.mirror_of
        (main_window_load pad (canvas w h)).minute (load_midx (canvas w h)) := by
  obtain ⟨q, rfl⟩ : ∃ q, pad = 2 * q := ⟨pad / 2, by omega⟩
  have eq2 : 2 * q / 2 = q := by omega
  rw [eq2] at hrep ⊢
  have em := load_midx_tdiv w h hw
  have bw := tdiv_two_bounds w
  unfold fits16 at hw hp hrep
  have ew : load_half_width (load_midx (canvas w h)) (2 * q) = load_midx (canvas w h) - 3 * q :=
    load_half_width_even _ q hrep.1 hrep.2
  have ex : (main_window_load (2 * q) (canvas w h)).minute.origin.x =
      load_midx (canvas w h) + q := by
    simp (disch := omega) only [main_window_load, GRectOf, em, cadd, cdiv,
      Int.mul_tdiv_cancel_left, wrap32_eq, wrap16_eq, ne_eq, OfNat.ofNat_ne_zero,
      not_false_eq_true]
  have ehx : (main_window_load (2 * q) (canvas w h)).hour.origin.x = 2 * q := by
    simp (disch := omega) only [main_window_load, GRectOf, wrap16_eq]
  have ehw : (main_window_load (2 * q) (canvas w h)).hour.size.w =
      load_midx (canvas w h) - 3 * q := by
    simp (disch := omega) only [main_window_load, GRectOf, wrap16_eq, ew]
  have emw : (main_window_load (2 * q) (canvas w h)).minute.size.w =
      load_midx (canvas w h) - 3 * q := by
    simp (disch := omega) only [main_window_load, GRectOf, wrap16_eq, ew]
  have ey : (main_window_load (2 * q) (canvas w h)).minute.origin.y =
      (main_window_load (2 * q) (canvas w h)).hour.origin.y := by
    simp only [main_window_load, GRectOf]
  have eh : (main_window_load (2 * q) (canvas w h)).minute.size.h =
      (main_window_load (2 * q) (canvas w h)).hour.size.h := by
    simp only [main_window_load, GRectOf]
  refine ⟨ey, by rw [emw, ehw], eh, ex, ehx, ?_, ?_, ?_, ?_⟩
  · simp only [GRect.right, ehx, ehw]
    omega
  · simp only [GRect.right, ehx, emw, ex]
    omega
  · simp only [GRect.right, ehx, ehw, ex]
    omega
  · intro x y
    simp only [GRect.contains, GRect.right, GRect.bottom, ehx, ehw, ex, emw, ey, eh]
    omega

theorem minute_mirrors_hour_witness :
    (main_window_load 12 (canvas 180 180)).minute.origin.x = load_midx (canvas 180 180) + 12 / 2 ∧
      (main_window_load 12 (canvas 180 180)).hour.mirror_of
        (main_window_load 12 (canvas 180 180)).minute (load_midx (canvas 180 180)) :=
  have t := minute_mirrors_hour 12 180 180 (by decide) (by decide) (by decide) (by decide)
  ⟨t.2.2.2.1, t.2.2.2.2.2.2.2.2⟩

/-- C1, as stated, fails: on the 180 by 180 canvas with padding 12 the date
frame (rows 114 to 149) and the day frame (rows 138 to 173) both contain the
pixel (12, 138), and on a 40 by 22 canvas with padding 12 the hour frame and
the day frame both contain the pixel (12, 12). -/
theorem date_day_share_pixel :
    ¬ (main_window_load 12 (canvas 180 180)).date.disjoint
        (main_window_load 12 (canvas 180 180)).day ∧
      ¬ (main_window_load 12 (canvas 40 22)).hour.disjoint
        (main_window_load 12 (canvas 40 22)).day := by
  constructor
  · intro hd
    exact hd 12 138 (by decide)
  · intro hd
    exact hd 12 12 (by decide)

/-- C1, amended: for every canvas with positive width and height and padding
12 or 6, the hour, minute and date frames are pairwise non-overlapping; the
day frame does not overlap the hour or the minute frame whenever the lower
band `bottom_h = height - apex_y` is at least `pad` high; the date and the
day frame are not disjoint by construction: when the canvas is wider than
`2*pad` and half the lower band is at least `pad`, their common pixels are
exactly the `pad` rows starting at the top edge of the day frame, over the
full width of both. -/
theorem regions_disjoint_except_date_day (pad w h : Int) (hp : pad = 12 ∨ pad = 6)
    (w0 : 0 < w) (w1 : w ≤ 32767) (h0 : 0 < h) (h1 : h ≤ 32767) :
    (main_window_load pad (canvas w h)).hour.disjoint
        (main_window_load pad (canvas w h)).minute ∧
      (main_window_load pad (canvas w h)).hour.disjoint
        (main_window_load pad (canvas w h)).date ∧
      (main_window_load pad (canvas w h)).minute.disjoint
        (main_window_load pad (canvas w h)).date ∧
      (pad ≤ load_bottom_h (canvas w h) →
        (main_window_load pad (canvas w h)).hour.disjoint
            (main_window_load pad (canvas w h)).day ∧
          (main_window_load pad (canvas w h)).minute.disjoint
            (main_window_load pad (canvas w h)).day) ∧
      (2 * pad < w → pad ≤ load_bottom_h (canvas w h) / 2 →
        (main_window_load pad (canvas w h)).date.inter_eq
          (main_window_load pad (canvas w h)).day
          ⟨(main_window_load pad (canvas w h)).day.origin, ⟨w - 2 * pad, pad⟩⟩) := by
  rw [layout_canvas pad w h hp (by omega) w1 (by omega) h1,
    load_bottom_h_canvas w h (by omega) h1]
  simp only [GRect.disjoint, GRect.inter_eq, GRect.contains, GRect.right, GRect.bottom]
  rcases hp with rfl | rfl
  · refine ⟨?_, ?_, ?_, ?_, ?_⟩
    · intro x y
      omega
    · intro x y
      omega
    · intro x y
      omega
    · intro hb
      constructor <;> intro x y <;> omega
    · intro hw hb x y
      omega
  · refine ⟨?_, ?_, ?_, ?_, ?_⟩
    · intro x y
      omega
    · intro x y
      omega
    · intro x y
      omega
    · intro hb
      constructor <;> intro x y <;> omega
    · intro hw hb x y
      omega

theorem regions_disjoint_except_date_day_witness :
    (main_window_load 12 (canvas 180 180)).hour.disjoint
        (main_window_load 12 (canvas 180 180)).minute ∧
      (main_window_load 12 (canvas 180 180)).hour.disjoint
        (main_window_load 12 (canvas 180 180)).date ∧
      (main_window_load 12 (canvas 180 180)).minute.disjoint
        (main_window_load 12 (canvas 180 180)).date ∧
      (main_window_load 12 (canvas 180 180)).hour.disjoint
        (main_window_load 12 (canvas 180 180)).day ∧
      (main_window_load 12 (canvas 180 180)).minute.disjoint
        (main_window_load 12 (canvas 180 180)).day ∧
      (main_window_load 12 (canvas 180 180)).date.inter_eq
        (main_window_load 12 (canvas 180 180)).day
        ⟨(main_window_load 12 (canvas 180 180)).day.origin, ⟨180 - 2 * 12, 12⟩⟩ :=
  have t := regions_disjoint_except_date_day 12 180 180 (Or.inl rfl) (by decide) (by decide)
    (by decide) (by decide)
  ⟨t.1, t.2.1, t.2.2.1, (t.2.2.2.1 (by decide)).1, (t.2.2.2.1 (by decide)).2,
    t.2.2.2.2 (by decide) (by decide)⟩

/-- C2, as stated, fails: on a 16 by 16 canvas with padding 6 the hour frame
has width `8 - 9 = -1`, so it does not lie within the canvas. -/
theorem small_canvas_hour_not_within :
    (main_window_load (PBL_IF_ROUND_ELSE false 12 6) (canvas 16 16)).hour.size.w = -1 ∧
      ¬ (main_window_load (PBL_IF_ROUND_ELSE false 12 6) (canvas 16 16)).hour.within 16 16 := by
  decide

/-- C2, amended: for every canvas with positive width and height and padding
12 or 6, all four frames lie within the canvas (origin at or after (0,0),
non-negative width and height, origin plus size inside the canvas) exactly
when the width is at least `3*pad` (36 or 18) and the height is at least 26
for padding 12, at least 11 for padding 6. -/
theorem regions_within_canvas_iff (pad w h : Int) (hp : pad = 12 ∨ pad = 6)
    (w0 : 0 < w) (w1 : w ≤ 32767) (h0 : 0 < h) (h1 : h ≤ 32767) :
    ((main_window_load pad (canvas w h)).hour.within w h ∧
        (main_window_load pad (canvas w h)).minute.within w h ∧
        (main_window_load pad (canvas w h)).date.within w h ∧
        (main_window_load pad (canvas w h)).day.within w h) ↔
      (3 * pad ≤ w ∧ (if pad = 12 then 26 else 11) ≤ h) := by
  rw [layout_canvas pad w h hp (by omega) w1 (by omega) h1]
  simp only [GRect.within, GRect.right, GRect.bottom]
  rcases hp with rfl | rfl
  · simp only [if_true]
    omega
  · simp only [show ¬ ((6 : Int) = 12) by decide, if_false]
    omega

theorem regions_within_canvas_iff_witness :
    (main_window_load 6 (canvas 144 168)).hour.within 144 168 ∧
      (main_window_load 6 (canvas 144 168)).minute.within 144 168 ∧
      (main_window_load 6 (canvas 144 168)).date.within 144 168 ∧
      (main_window_load 6 (canvas 144 168)).day.within 144 168 :=
  (regions_within_canvas_iff 6 144 168 (Or.inr rfl) (by decide) (by decide) (by decide)
    (by decide)).2 (by decide)

/-! ## Time formatting lemmas -/

theorem expand_H (t : Tm) : strftime_expand "%H".toList t = pad2 t.tm_hour := by
  simp [strftime_expand, strftime_conv]

theorem expand_I (t : Tm) : strftime_expand "%I".toList t =
    pad2 (if t.tm_hour % 12 = 0 then 12 else t.tm_hour % 12) := by
  simp [strftime_expand, strftime_conv]

theorem expand_M (t : Tm) : strftime_expand "%M".toList t = pad2 t.tm_min := by
  simp [strftime_expand, strftime_conv]

theorem expand_d (t : Tm) : strftime_expand "%d".toList t = pad2 t.tm_mday := by
  simp [strftime_expand, strftime_conv]

theorem expand_a (t : Tm) : strftime_expand "%a".toList t = wday_abbrev.getD t.tm_wday ['?'] := by
  simp [strftime_expand, strftime_conv]

set_option maxRecDepth 100000 in
theorem pad2_spec : ∀ n, n < 60 →
    (pad2 n).length = 2 ∧ two_digit_value (pad2 n) = some n ∧ NUL ∉ pad2 n := by
  decide

theorem strftime_fits (s : List Char) (n : Nat) (format : String) (t : Tm)
    (hs : s.length = n) (hout : (strftime_expand format.toList t).length + 1 = n) :
    strftime s n format t = some (strftime_expand format.toList t ++ [NUL]) := by
  unfold strftime
  have hd : s.drop ((strftime_expand format.toList t).length + 1) = [] := by
    rw [List.drop_eq_nil_iff]
    omega
  simp only [hd]
  rw [if_pos ⟨by omega, by omega⟩]

theorem cstr_append_nul (l : List Char) (h : NUL ∉ l) (r : List Char) :
    cstr (l ++ NUL :: r) = l := by
  induction l with
  | nil => simp [cstr]
  | cons a l ih =>
    have ha : a ≠ NUL := fun e => h (by simp [e])
    have hl : NUL ∉ l := fun e => h (by simp [e])
    simp only [cstr, List.cons_append] at ih ⊢
    rw [List.takeWhile_cons_of_pos (by simpa using ha), ih hl]

set_option maxRecDepth 100000 in
theorem strip_after_I : ∀ h, h < 24 →
    (strip_leading_zero (pad2 (if h % 12 = 0 then 12 else h % 12) ++ [NUL])).map
        (fun r => (r.length, decide (NUL ∈ r), cstr r)) =
      some (3, true, Nat.toDigits 10 ((h + 11) % 12 + 1)) := by
  decide

set_option maxRecDepth 100000 in
theorem hour12_numeral_facts : ∀ h, h < 24 →
    1 ≤ (h + 11) % 12 + 1 ∧ (h + 11) % 12 + 1 ≤ 12 ∧
      1 ≤ (Nat.toDigits 10 ((h + 11) % 12 + 1)).length ∧
      (Nat.toDigits 10 ((h + 11) % 12 + 1)).length ≤ 2 ∧
      Nat.toDigits 10 ((h + 11) % 12 + 1) ≠ "0".toList ∧
      Nat.toDigits 10 ((h + 11) % 12 + 1) ≠ "00".toList ∧
      (Nat.toDigits 10 ((h + 11) % 12 + 1)).head? ≠ some '0' := by
  decide

set_option maxRecDepth 100000 in
theorem pad2_hour_length : ∀ h, h < 24 →
    (pad2 (if h % 12 = 0 then 12 else h % 12)).length = 2 := by
  decide

theorem update_hour_24h (t : Tm) (s : List Char) (hs : s.length = 3) (hh : t.tm_hour < 24) :
    update_hour true t s = some (pad2 t.tm_hour ++ [NUL]) := by
  have hp := pad2_spec t.tm_hour (by omega)
  rw [update_hour, if_pos rfl, strftime_fits s 3 "%H" t hs (by rw [expand_H, hp.1]), expand_H]

theorem update_hour_12h (t : Tm) (s : List Char) (hs : s.length = 3) (hh : t.tm_hour < 24) :
    ∃ r, update_hour false t s = some r ∧ r.length = 3 ∧ NUL ∈ r ∧
      cstr r = Nat.toDigits 10 ((t.tm_hour + 11) % 12 + 1) := by
  have hl := pad2_hour_length t.tm_hour hh
  have hs2 := strip_after_I t.tm_hour hh
  rw [update_hour, if_neg (by decide), strftime_fits s 3 "%I" t hs (by rw [expand_I, hl]),
    expand_I, Option.some_bind]
  cases hr : strip_leading_zero
      (pad2 (if t.tm_hour % 12 = 0 then 12 else t.tm_hour % 12) ++ [NUL]) with
  | none => rw [hr] at hs2; simp at hs2
  | some r =>
    rw [hr] at hs2
    simp only [Option.map_some', Option.some.injEq, Prod.mk.injEq, decide_eq_true_eq] at hs2
    exact ⟨r, rfl, hs2.1, hs2.2.1, hs2.2.2⟩

theorem strftime_min (t : Tm) (s : List Char) (hs : s.length = 3) (hm : t.tm_min < 60) :
    strftime s 3 "%M" t = some (pad2 t.tm_min ++ [NUL]) := by
  have hp := pad2_spec t.tm_min hm
  rw [strftime_fits s 3 "%M" t hs (by rw [expand_M, hp.1]), expand_M]

theorem strftime_date (t : Tm) (s : List Char) (hs : s.length = 3) (hd : t.tm_mday ≤ 31) :
    strftime s 3 "%d" t = some (pad2 t.tm_mday ++ [NUL]) := by
  have hp := pad2_spec t.tm_mday (by omega)
  rw [strftime_fits s 3 "%d" t hs (by rw [expand_d, hp.1]), expand_d]

theorem wday_abbrev_spec : ∀ d, d < 7 →
    (wday_abbrev.getD d ['?']).length = 3 ∧ NUL ∉ wday_abbrev.getD d ['?'] := by
  decide

theorem strftime_day (t : Tm) (s : List Char) (hs : s.length = 4) (hd : t.tm_wday < 7) :
    strftime s 4 "%a" t = some (wday_abbrev.getD t.tm_wday ['?'] ++ [NUL]) := by
  have hp := wday_abbrev_spec t.tm_wday hd
  rw [strftime_fits s 4 "%a" t hs (by rw [expand_a, hp.1]), expand_a]

/-- What `update_time` leaves in the arrays for a valid time. -/
theorem update_time_result (is_24h : Bool) (t : Tm) (st : Buffers) (hv : t.valid)
    (hst : st.wf) :
    ∃ hour, update_hour is_24h t st.s_hour_buf = some hour ∧
      update_time is_24h t st =
        some ⟨hour, pad2 t.tm_min ++ [NUL], pad2 t.tm_mday ++ [NUL],
          wday_abbrev.getD t.tm_wday ['?'] ++ [NUL]⟩ := by
  obtain ⟨hm, hh, _, hd, hw⟩ := hv
  obtain ⟨s1, s2, s3, s4⟩ := hst
  have hhour : ∃ hour, update_hour is_24h t st.s_hour_buf = some hour := by
    cases is_24h with
    | true => exact ⟨_, update_hour_24h t _ s1 hh⟩
    | false =>
      obtain ⟨r, hr, _⟩ := update_hour_12h t _ s1 hh
      exact ⟨r, hr⟩
  obtain ⟨hour, hhr⟩ := hhour
  refine ⟨hour, hhr, ?_⟩
  rw [update_time, hhr, strftime_min t _ s2 hm, strftime_date t _ s3 hd,
    strftime_day t _ s4 hw]
  rfl

theorem cstr_pad2 (n : Nat) (hn : n < 60) : cstr (pad2 n ++ [NUL]) = pad2 n :=
  cstr_append_nul (pad2 n) (pad2_spec n hn).2.2 []

theorem cstr_wday (d : Nat) (hd : d < 7) :
    cstr (wday_abbrev.getD d ['?'] ++ [NUL]) = wday_abbrev.getD d ['?'] :=
  cstr_append_nul _ (wday_abbrev_spec d hd).2 []

theorem memmove_strip (s : List Char) (hs : s.length = 3) :
    ∃ r, memmove s 0 1 2 = some r ∧ r.length = 3 := by
  match s, hs with
  | [a, b, c], _ => exact ⟨[b, c, c], by simp [memmove], rfl⟩

/-! ## Time formatting claims -/

/-- C3: in 12-hour mode, for every valid time, `update_time` succeeds and the
hour text is the decimal numeral, without leading zero, of
`((h + 11) mod 12) + 1`, a number from 1 to 12: never "0" or "00", never
starting with '0'; hour 0 gives "12" and hour 13 gives "1".  The strip leaves
every array that does not start with '0' unchanged (in particular "10", "11",
"12") and turns "0x" into "x". -/
theorem hour_text_12h (t : Tm) (st : Buffers) (hv : t.valid) (hst : st.wf) :
    (∃ st', update_time false t st = some st' ∧
        cstr st'.s_hour_buf = Nat.toDigits 10 ((t.tm_hour + 11) % 12 + 1) ∧
        1 ≤ (t.tm_hour + 11) % 12 + 1 ∧ (t.tm_hour + 11) % 12 + 1 ≤ 12 ∧
        cstr st'.s_hour_buf ≠ "0".toList ∧ cstr st'.s_hour_buf ≠ "00".toList ∧
        (cstr st'.s_hour_buf).head? ≠ some '0' ∧
        (t.tm_hour = 0 → cstr st'.s_hour_buf = "12".toList) ∧
        (t.tm_hour = 13 → cstr st'.s_hour_buf = "1".toList)) ∧
      (∀ s : List Char, s.head? ≠ some '0' → strip_leading_zero s = some s) ∧
      (∀ x : Char, strip_leading_zero ['0', x, NUL] = some [x, NUL, NUL]) ∧
      strip_leading_zero ("10".toList ++ [NUL]) = some ("10".toList ++ [NUL]) ∧
      strip_leading_zero ("11".toList ++ [NUL]) = some ("11".toList ++ [NUL]) ∧
      strip_leading_zero ("12".toList ++ [NUL]) = some ("12".toList ++ [NUL]) := by
  refine ⟨?_, ?_, ?_, by decide, by decide, by decide⟩
  · obtain ⟨hour, hh, hu⟩ := update_time_result false t st hv hst
    obtain ⟨r, hr, _, _, hc⟩ := update_hour_12h t st.s_hour_buf hst.1 hv.2.1
    rw [hh] at hr
    cases hr
    have hf := hour12_numeral_facts t.tm_hour hv.2.1
    refine ⟨_, hu, hc, hf.1, hf.2.1, ?_, ?_, ?_, ?_, ?_⟩
    · rw [hc]; exact hf.2.2.2.2.1
    · rw [hc]; exact hf.2.2.2.2.2.1
    · rw [hc]; exact hf.2.2.2.2.2.2
    · intro h0
      rw [hc, h0]
      decide
    · intro h13
      rw [hc, h13]
      decide
  · intro s hs
    rw [strip_leading_zero, if_neg hs]
  · intro x
    simp [strip_leading_zero, memmove]

theorem hour_text_12h_witness :
    ∃ st', update_time false ⟨5, 13, 9, 0⟩ Buffers.init = some st' ∧
      cstr st'.s_hour_buf = Nat.toDigits 10 ((13 + 11) % 12 + 1) :=
  have t := (hour_text_12h ⟨5, 13, 9, 0⟩ Buffers.init (by decide) (by decide)).1
  t.elim fun st' h => ⟨st', h.1, h.2.1⟩

/-- C8: for every valid time, `update_time` succeeds and each zero-padded
field is exactly two decimal digits whose value is the field: the minute text
(minute 5 gives "05", minute 59 gives "59"), the date text, and in 24-hour mode
the hour text (hour 0 gives "00", hour 23 gives "23"). -/
theorem zero_padded_fields (is_24h : Bool) (t : Tm) (st : Buffers) (hv : t.valid)
    (hst : st.wf) :
    ∃ st', update_time is_24h t st = some st' ∧
      (cstr st'.s_min_buf).length = 2 ∧
      two_digit_value (cstr st'.s_min_buf) = some t.tm_min ∧
      (cstr st'.s_date_buf).length = 2 ∧
      two_digit_value (cstr st'.s_date_buf) = some t.tm_mday ∧
      (is_24h = true → (cstr st'.s_hour_buf).length = 2 ∧
        two_digit_value (cstr st'.s_hour_buf) = some t.tm_hour) ∧
      (t.tm_min = 5 → cstr st'.s_min_buf = "05".toList) ∧
      (t.tm_min = 59 → cstr st'.s_min_buf = "59".toList) ∧
      (is_24h = true → t.tm_hour = 0 → cstr st'.s_hour_buf = "00".toList) ∧
      (is_24h = true → t.tm_hour = 23 → cstr st'.s_hour_buf = "23".toList) := by
  obtain ⟨hour, hh, hu⟩ := update_time_result is_24h t st hv hst
  obtain ⟨hm, hhr, _, hd, _⟩ := hv
  have pm := pad2_spec t.tm_min hm
  have pd := pad2_spec t.tm_mday (by omega)
  have ph := pad2_spec t.tm_hour (by omega)
  have h24 : is_24h = true → cstr hour = pad2 t.tm_hour := by
    intro e
    subst e
    rw [update_hour_24h t st.s_hour_buf hst.1 hhr] at hh
    cases hh
    exact cstr_pad2 _ (by omega)
  refine ⟨_, hu, ?_, ?_, ?_, ?_, ?_, ?_, ?_, ?_, ?_⟩
  · rw [cstr_pad2 _ hm]; exact pm.1
  · rw [cstr_pad2 _ hm]; exact pm.2.1
  · rw [cstr_pad2 _ (by omega)]; exact pd.1
  · rw [cstr_pad2 _ (by omega)]; exact pd.2.1
  · intro e
    simp only [h24 e]
    exact ⟨ph.1, ph.2.1⟩
  · intro e
    simp only [cstr_pad2 _ hm, e]
    decide
  · intro e
    simp only [cstr_pad2 _ hm, e]
    decide
  · intro e e0
    simp only [h24 e, e0]
    decide
  · intro e e23
    simp only [h24 e, e23]
    decide

theorem zero_padded_fields_witness :
    ∃ st', update_time true ⟨59, 23, 31, 6⟩ Buffers.init = some st' ∧
      cstr st'.s_min_buf = "59".toList ∧ cstr st'.s_hour_buf = "23".toList ∧
      two_digit_value (cstr st'.s_date_buf) = some 31 :=
  have t := zero_padded_fields true ⟨59, 23, 31, 6⟩ Buffers.init (by decide) (by decide)
  t.elim fun st' h => ⟨st', h.1, h.2.2.2.2.2.2.2.1 rfl, h.2.2.2.2.2.2.2.2.2 rfl rfl,
    h.2.2.2.2.1⟩

/-- C10: for every valid time and either preference, no formatting call is
truncated, the 2-byte move stays inside the 3-byte hour array, and
`update_time` leaves four terminated arrays of sizes 3, 3, 3, 4 whose strings
are non-empty and fit with their terminator: hour text 1 or 2 characters,
minute text 2, date text 2, day text 3. -/
theorem display_strings_fit (is_24h : Bool) (t : Tm) (st : Buffers) (hv : t.valid)
    (hst : st.wf) :
    (strftime st.s_hour_buf 3 "%H" t).isSome ∧ (strftime st.s_hour_buf 3 "%I" t).isSome ∧
      (strftime st.s_min_buf 3 "%M" t).isSome ∧ (strftime st.s_date_buf 3 "%d" t).isSome ∧
      (strftime st.s_day_buf 4 "%a" t).isSome ∧
      (∀ s : List Char, s.length = 3 → ∃ r, memmove s 0 1 2 = some r ∧ r.length = 3) ∧
      ∃ st', update_time is_24h t st = some st' ∧ st'.wf ∧
        NUL ∈ st'.s_hour_buf ∧ NUL ∈ st'.s_min_buf ∧ NUL ∈ st'.s_date_buf ∧
        NUL ∈ st'.s_day_buf ∧
        1 ≤ (cstr st'.s_hour_buf).length ∧ (cstr st'.s_hour_buf).length ≤ 2 ∧
        (cstr st'.s_min_buf).length = 2 ∧ (cstr st'.s_date_buf).length = 2 ∧
        (cstr st'.s_day_buf).length = 3 ∧
        (cstr st'.s_hour_buf).length + 1 ≤ st'.s_hour_buf.length ∧
        (cstr st'.s_min_buf).length + 1 ≤ st'.s_min_buf.length ∧
        (cstr st'.s_date_buf).length + 1 ≤ st'.s_date_buf.length ∧
        (cstr st'.s_day_buf).length + 1 ≤ st'.s_day_buf.length := by
  obtain ⟨hour, hh, hu⟩ := update_time_result is_24h t st hv hst
  obtain ⟨hm, hhr, hd1, hd, hw⟩ := hv
  have pm := pad2_spec t.tm_min hm
  have pd := pad2_spec t.tm_mday (by omega)
  have ph := pad2_spec t.tm_hour (by omega)
  have pw := wday_abbrev_spec t.tm_wday hw
  have hI : (strftime st.s_hour_buf 3 "%I" t).isSome := by
    rw [strftime_fits st.s_hour_buf 3 "%I" t hst.1
      (by rw [expand_I, pad2_hour_length t.tm_hour hhr])]
    rfl
  have hH : (strftime st.s_hour_buf 3 "%H" t).isSome := by
    rw [strftime_fits st.s_hour_buf 3 "%H" t hst.1 (by rw [expand_H, ph.1])]
    rfl
  have hhour : hour.length = 3 ∧ NUL ∈ hour ∧ 1 ≤ (cstr hour).length ∧
      (cstr hour).length ≤ 2 := by
    cases is_24h with
    | true =>
      rw [update_hour_24h t st.s_hour_buf hst.1 hhr] at hh
      cases hh
      rw [cstr_pad2 _ (by omega)]
      simp [ph.1]
    | false =>
      obtain ⟨r, hr, h3, hn, hc⟩ := update_hour_12h t st.s_hour_buf hst.1 hhr
      rw [hh] at hr
      cases hr
      have hf := hour12_numeral_facts t.tm_hour hhr
      rw [hc]
      exact ⟨h3, hn, hf.2.2.1, hf.2.2.2.1⟩
  refine ⟨hH, hI, ?_, ?_, ?_, memmove_strip, _, hu, ?_, hhour.2.1, ?_, ?_, ?_, hhour.2.2.1,
    hhour.2.2.2, ?_, ?_, ?_, ?_, ?_, ?_, ?_⟩
  · rw [strftime_min t _ hst.2.1 hm]; rfl
  · rw [strftime_date t _ hst.2.2.1 hd]; rfl
  · rw [strftime_day t _ hst.2.2.2 hw]; rfl
  · exact ⟨hhour.1, by simp only [List.length_append, pm.1, List.length_singleton],
      by simp only [List.length_append, pd.1, List.length_singleton],
      by simp only [List.length_append, pw.1, List.length_singleton]⟩
  · simp
  · simp
  · simp
  · simp only [cstr_pad2 _ hm]; exact pm.1
  · simp only [cstr_pad2 _ (show t.tm_mday < 60 by omega)]; exact pd.1
  · simp only [cstr_wday _ hw]; exact pw.1
  · simp only [hhour.1]; omega
  · simp only [cstr_pad2 _ hm, List.length_append, pm.1]; simp
  · simp only [cstr_pad2 _ (show t.tm_mday < 60 by omega), List.length_append, pd.1]; simp
  · simp only [cstr_wday _ hw, List.length_append, pw.1]; simp

theorem display_strings_fit_witness :
    ∃ st', update_time false ⟨7, 9, 1, 3⟩ Buffers.init = some st' ∧ st'.wf ∧
      (cstr st'.s_hour_buf).length ≤ 2 ∧ (cstr st'.s_day_buf).length = 3 :=
  have t := (display_strings_fit false ⟨7, 9, 1, 3⟩ Buffers.init (by decide)
    (by decide)).2.2.2.2.2.2
  t.elim fun st' h => ⟨st', h.1, h.2.1, h.2.2.2.2.2.2.2.1, h.2.2.2.2.2.2.2.2.2.2.1⟩

end Watchface
